import Mathlib

/-!
Verification development for the WebPageGenie retrieval-augmented page
editor.  The definitions below are shallow embeddings of the core code:

* `app/vectors.py` — `hybrid_search_rrf` (reciprocal-rank fusion),
  `similarity_search`, `upsert_chunks`;
* `app/validate.py` — `validate_page_with_playwright`;
* `app/rag.py` — the LangGraph pipeline state, `_enhanced_validate`
  and the `_needs_fix` retry decision;
* `app/main.py` — the `/api/chat` persistence guard.

Python float arithmetic on the RRF scores is modelled with exact
rationals (`ℚ`); the scores involved are sums of unit fractions
`1/(K+rank+1)` and no claim depends on rounding behaviour.
-/

namespace WebPageGenie

/-! ## Reciprocal-rank fusion (`app/vectors.py`, `hybrid_search_rrf`)

Documents are identified by their integer primary key (`doc.id`); the two
input lists are the id sequences of `similarity_search` and
`lexical_search` results, already ordered best-first. -/

/-- Chunk identifier: the `Document.id` primary key used as dict key. -/
abbrev ChunkId := Nat

/-- One dict write `scores[id] = scores.get(id, 0.0) + inc`, on an
insertion-ordered association list with unique keys. -/
def bump : List (ChunkId × ℚ) → ChunkId → ℚ → List (ChunkId × ℚ)
  | [], id, inc => [(id, inc)]
  | (k, v) :: rest, id, inc =>
      if k = id then (k, v + inc) :: rest else (k, v) :: bump rest id inc

/-- Dict read `scores.get(id, 0.0)`. -/
def scoreOf : List (ChunkId × ℚ) → ChunkId → ℚ
  | [], _ => 0
  | (k, v) :: rest, id => if k = id then v else scoreOf rest id

/-- One pass `for rank, doc in enumerate(results): scores[doc.id] =
scores.get(doc.id, 0.0) + 1.0 / (rrf_k + rank + 1)`, carrying the
current zero-based rank explicitly. -/
def rrfPassAux (K : ℕ) : List (ChunkId × ℚ) → ℕ → List ChunkId → List (ChunkId × ℚ)
  | m, _, [] => m
  | m, rank, d :: ds => rrfPassAux K (bump m d (1 / ((K : ℚ) + rank + 1))) (rank + 1) ds

/-- The `scores` dict after both passes of `hybrid_search_rrf`:
first over the vector results, then over the lexical results. -/
def rrfScores (K : ℕ) (vec lex : List ChunkId) : List (ChunkId × ℚ) :=
  rrfPassAux K (rrfPassAux K [] 0 vec) 0 lex

/-- The `order` dict built with `order.setdefault(doc.id, doc)`:
ids in order of first occurrence over vector results then lexical
results.  The first argument accumulates the ids already seen. -/
def firstOccur : List ChunkId → List ChunkId → List ChunkId
  | _, [] => []
  | seen, d :: ds => if d ∈ seen then firstOccur seen ds else d :: firstOccur (d :: seen) ds

/-- The list `ranked = sorted(order.values(), key=lambda d:
scores.get(d.id, 0.0), reverse=True)`.  Python `sorted` is a stable
merge sort; `List.mergeSort` with the non-strict descending comparison
has the same output (ties keep first-occurrence order). -/
def rankedRRF (K : ℕ) (vec lex : List ChunkId) : List ChunkId :=
  (firstOccur [] (vec ++ lex)).mergeSort
    (fun a b => decide (scoreOf (rrfScores K vec lex) b ≤ scoreOf (rrfScores K vec lex) a))

/-- Reciprocal-rank fusion of the two search result lists:
`return ranked[:k_final]`.  The reference defaults are `k_final = 5`,
`rrf_k = 60`; both are kept as parameters. -/
def hybrid_search_rrf (vec lex : List ChunkId) (k_final K : ℕ) : List ChunkId :=
  (rankedRRF K vec lex).take k_final

/-- Zero-based rank of `c` in a list, starting the count at `r`
(`none` when absent). -/
def rankFrom (c : ChunkId) : ℕ → List ChunkId → Option ℕ
  | _, [] => none
  | r, x :: xs => if x = c then some r else rankFrom c (r + 1) xs

/-- Score contribution of one list given the (optional) rank in it. -/
def rankContribution (K : ℕ) : Option ℕ → ℚ
  | some i => 1 / ((K : ℚ) + i + 1)
  | none => 0

/-- The fused score the spec describes: the sum of `1/(K + rank + 1)`
over whichever of the two lists contain the chunk, `rank` being the
zero-based position there. -/
def rrfScore (K : ℕ) (vec lex : List ChunkId) (c : ChunkId) : ℚ :=
  rankContribution K (rankFrom c 0 vec) + rankContribution K (rankFrom c 0 lex)

lemma scoreOf_bump (m : List (ChunkId × ℚ)) (id c : ChunkId) (inc : ℚ) :
    scoreOf (bump m id inc) c = scoreOf m c + (if c = id then inc else 0) := by
  induction m with
  | nil =>
      simp only [bump, scoreOf]
      by_cases h : id = c
      · rw [if_pos h, if_pos h.symm, zero_add]
      · rw [if_neg h, if_neg (fun hh : c = id => h hh.symm), add_zero]
  | cons kv rest ih =>
      obtain ⟨k, v⟩ := kv
      simp only [bump]
      by_cases hk : k = id
      · rw [if_pos hk]
        simp only [scoreOf]
        by_cases hc : k = c
        · rw [if_pos hc, if_pos hc, if_pos (hc.symm.trans hk)]
        · rw [if_neg hc, if_neg hc, if_neg (fun hh : c = id => hc ((hk.trans hh.symm))), add_zero]
      · rw [if_neg hk]
        simp only [scoreOf]
        by_cases hc : k = c
        · rw [if_pos hc, if_pos hc, if_neg (fun hh : c = id => hk (hc.trans hh)), add_zero]
        · rw [if_neg hc, if_neg hc, ih]

lemma rankFrom_eq_none (c : ChunkId) (l : List ChunkId) (h : c ∉ l) :
    ∀ r, rankFrom c r l = none := by
  induction l with
  | nil => intro r; rfl
  | cons x xs ih =>
      intro r
      have hx : x ≠ c := fun hxc => h (hxc ▸ List.mem_cons_self x xs)
      have hxs : c ∉ xs := fun hm => h (List.mem_cons_of_mem x hm)
      simp only [rankFrom, if_neg hx]
      exact ih hxs (r + 1)

lemma scoreOf_rrfPassAux (K : ℕ) (c : ChunkId) :
    ∀ (l : List ChunkId), l.Nodup → ∀ (m : List (ChunkId × ℚ)) (r : ℕ),
      scoreOf (rrfPassAux K m r l) c = scoreOf m c + rankContribution K (rankFrom c r l) := by
  intro l
  induction l with
  | nil => intro _ m r; simp [rrfPassAux, rankFrom, rankContribution]
  | cons d ds ih =>
      intro hnd m r
      have hd : d ∉ ds := (List.nodup_cons.mp hnd).1
      have hds : ds.Nodup := (List.nodup_cons.mp hnd).2
      by_cases hdc : d = c
      · subst hdc
        have hnone : rankFrom d (r + 1) ds = none := rankFrom_eq_none d ds hd (r + 1)
        simp only [rrfPassAux, rankFrom, if_pos rfl]
        rw [ih hds, hnone, scoreOf_bump]
        simp [rankContribution]
      · simp only [rrfPassAux, rankFrom, if_neg hdc]
        rw [ih hds, scoreOf_bump, if_neg (fun h : c = d => hdc h.symm), add_zero]

lemma scoreOf_rrfScores (K : ℕ) (vec lex : List ChunkId) (hv : vec.Nodup)
    (hl : lex.Nodup) (c : ChunkId) :
    scoreOf (rrfScores K vec lex) c = rrfScore K vec lex c := by
  unfold rrfScores rrfScore
  rw [scoreOf_rrfPassAux K c lex hl, scoreOf_rrfPassAux K c vec hv]
  simp [scoreOf, add_comm]

/-- C1.  With distinct ids inside each input list (as delivered by the
two SQL queries), `hybrid_search_rrf` assigns every chunk the score
`1/(K + rank + 1)` summed over the lists containing it (both
contributions accumulate for a chunk in both lists), and returns the
first `k_final` entries of a list that enumerates all candidate chunks
exactly once sorted by non-increasing fused score, with `K = 60`. -/
theorem rrf_fusion_topk (vec lex : List ChunkId) (k_final : ℕ)
    (hv : vec.Nodup) (hl : lex.Nodup) :
    hybrid_search_rrf vec lex k_final 60 = (rankedRRF 60 vec lex).take k_final
    ∧ (rankedRRF 60 vec lex).Perm (firstOccur [] (vec ++ lex))
    ∧ (rankedRRF 60 vec lex).Pairwise
        (fun a b => rrfScore 60 vec lex b ≤ rrfScore 60 vec lex a)
    ∧ ∀ c : ChunkId, scoreOf (rrfScores 60 vec lex) c = rrfScore 60 vec lex c := by
  refine ⟨rfl, List.mergeSort_perm _ _, ?_, fun c => scoreOf_rrfScores 60 vec lex hv hl c⟩
  have hsorted := @List.sorted_mergeSort _
    (fun a b => decide (scoreOf (rrfScores 60 vec lex) b ≤ scoreOf (rrfScores 60 vec lex) a))
    (fun a b c hab hbc => by
      simp only [decide_eq_true_eq] at *
      exact le_trans hbc hab)
    (fun a b => by
      simp only [Bool.or_eq_true, decide_eq_true_eq]
      exact le_total _ _)
    (firstOccur [] (vec ++ lex))
  refine (List.Pairwise.imp ?_ hsorted)
  intro a b hab
  simp only [decide_eq_true_eq] at hab
  rw [← scoreOf_rrfScores 60 vec lex hv hl a, ← scoreOf_rrfScores 60 vec lex hv hl b]
  exact hab

/-- Witness for `rrf_fusion_topk` at concrete input lists. -/
theorem rrf_fusion_topk_witness :
    hybrid_search_rrf [10, 11] [11] 2 60 = (rankedRRF 60 [10, 11] [11]).take 2
    ∧ (rankedRRF 60 [10, 11] [11]).Perm (firstOccur [] ([10, 11] ++ [11]))
    ∧ (rankedRRF 60 [10, 11] [11]).Pairwise
        (fun a b => rrfScore 60 [10, 11] [11] b ≤ rrfScore 60 [10, 11] [11] a)
    ∧ ∀ c : ChunkId, scoreOf (rrfScores 60 [10, 11] [11]) c = rrfScore 60 [10, 11] [11] c :=
  rrf_fusion_topk [10, 11] [11] 2 (by decide) (by decide)

/-- C8.  Rank monotonicity of the fused score: if a chunk occupies a
better (smaller zero-based) rank in the vector list — respectively the
lexical list — while the other list is unchanged, its fused score does
not decrease. -/
theorem rrf_rank_monotone :
    (∀ (K : ℕ) (vec vec2 lex : List ChunkId) (c : ChunkId) (i j : ℕ),
        vec.Nodup → vec2.Nodup → lex.Nodup →
        rankFrom c 0 vec = some i → rankFrom c 0 vec2 = some j → j ≤ i →
        scoreOf (rrfScores K vec lex) c ≤ scoreOf (rrfScores K vec2 lex) c)
    ∧ (∀ (K : ℕ) (vec lex lex2 : List ChunkId) (c : ChunkId) (i j : ℕ),
        vec.Nodup → lex.Nodup → lex2.Nodup →
        rankFrom c 0 lex = some i → rankFrom c 0 lex2 = some j → j ≤ i →
        scoreOf (rrfScores K vec lex) c ≤ scoreOf (rrfScores K vec lex2) c) := by
  have key : ∀ (K i j : ℕ), j ≤ i →
      rankContribution K (some i) ≤ rankContribution K (some j) := by
    intro K i j hji
    simp only [rankContribution]
    have h0 : (0 : ℚ) < (K : ℚ) + j + 1 := by positivity
    have hle : (K : ℚ) + j + 1 ≤ (K : ℚ) + i + 1 := by
      have : (j : ℚ) ≤ (i : ℚ) := by exact_mod_cast hji
      linarith
    exact one_div_le_one_div_of_le h0 hle
  constructor
  · intro K vec vec2 lex c i j hv hv2 hl hri hrj hji
    rw [scoreOf_rrfScores K vec lex hv hl, scoreOf_rrfScores K vec2 lex hv2 hl]
    unfold rrfScore
    rw [hri, hrj]
    exact add_le_add (key K i j hji) le_rfl
  · intro K vec lex lex2 c i j hv hl hl2 hri hrj hji
    rw [scoreOf_rrfScores K vec lex hv hl, scoreOf_rrfScores K vec lex2 hv hl2]
    unfold rrfScore
    rw [hri, hrj]
    exact add_le_add le_rfl (key K i j hji)

/-- Witness for `rrf_rank_monotone`: chunk 2 moves from rank 1 to rank 0
in the vector list. -/
theorem rrf_rank_monotone_witness :
    scoreOf (rrfScores 60 [1, 2] [3]) 2 ≤ scoreOf (rrfScores 60 [2, 1] [3]) 2 :=
  rrf_rank_monotone.1 60 [1, 2] [2, 1] [3] 2 1 0
    (by decide) (by decide) (by decide) (by decide) (by decide) (by decide)

/-! ## Vector store accessor (`app/vectors.py`)

The relational store is modelled as the list of `documents` rows; a
SQLAlchemy session is a committed store plus the operations executed
but not yet committed.  `commits` records every committed snapshot, so
that atomicity ("no partial replacement is ever observable") is the
statement that one `upsert_chunks` call appends exactly one snapshot. -/

/-- Python truthiness of an optional string (`if slug:`): `None` and
the empty string are falsy. -/
def truthy : Option String → Bool
  | none => false
  | some s => !(s == "")

/-- One row of the `documents` table. -/
structure DocumentRow where
  slug : String
  chunk_id : ℕ
  content : String
  embedding : Option (List ℚ)
  dom_path : Option String
deriving Repr, DecidableEq

/-- The visible table contents. -/
abbrev Store := List DocumentRow

/-- The statements `upsert_chunks` issues:
`delete(Document).where(Document.slug == slug)` and `db.add(...)`. -/
inductive DbOp where
  | deleteSlug (slug : String)
  | insertRow (row : DocumentRow)
deriving Repr, DecidableEq

/-- Effect of one statement on the table. -/
def applyOp : Store → DbOp → Store
  | st, .deleteSlug sl => st.filter (fun r => !(r.slug == sl))
  | st, .insertRow row => st ++ [row]

/-- A session: committed table state, statements issued since the last
commit, and the trace of committed snapshots (what concurrent readers
can ever observe). -/
structure DbSession where
  committed : Store
  pending : List DbOp
  commits : List Store
deriving Repr, DecidableEq

/-- `db.execute(stmt)` / `db.add(obj)`: queue one statement in the open
transaction. -/
def dbExecute (s : DbSession) (op : DbOp) : DbSession :=
  { s with pending := s.pending ++ [op] }

/-- `db.commit()`: apply every pending statement atomically and expose
the new snapshot. -/
def dbCommit (s : DbSession) : DbSession :=
  let st := s.pending.foldl applyOp s.committed
  { committed := st, pending := [], commits := s.commits ++ [st] }

/-- One `(chunk_id, content, embedding, dom_path)` tuple of the
`chunks` iterable. -/
abbrev ChunkInput := ℕ × String × Option (List ℚ) × Option String

/-- The `Document(...)` row built for one chunk tuple. -/
def rowOfChunk (slug : String) (c : ChunkInput) : DocumentRow :=
  { slug := slug, chunk_id := c.1, content := c.2.1,
    embedding := c.2.2.1, dom_path := c.2.2.2 }

/-- `upsert_chunks(db, slug, chunks)`: delete all rows of the slug,
add one row per chunk, then commit once. -/
def upsert_chunks (db : DbSession) (slug : String) (chunks : List ChunkInput) : DbSession :=
  let db1 := dbExecute db (.deleteSlug slug)
  let db2 := chunks.foldl (fun s c => dbExecute s (.insertRow (rowOfChunk slug c))) db1
  dbCommit db2

lemma pending_after_inserts (slug : String) (chunks : List ChunkInput) :
    ∀ db : DbSession,
      (chunks.foldl (fun s c => dbExecute s (.insertRow (rowOfChunk slug c))) db).pending
        = db.pending ++ chunks.map (fun c => DbOp.insertRow (rowOfChunk slug c))
    ∧ (chunks.foldl (fun s c => dbExecute s (.insertRow (rowOfChunk slug c))) db).committed
        = db.committed
    ∧ (chunks.foldl (fun s c => dbExecute s (.insertRow (rowOfChunk slug c))) db).commits
        = db.commits := by
  induction chunks with
  | nil => intro db; simp
  | cons c cs ih =>
      intro db
      simp only [List.foldl_cons, List.map_cons]
      refine ⟨?_, (ih _).2.1, (ih _).2.2⟩
      rw [(ih _).1]
      simp [dbExecute]

lemma foldl_applyOp_inserts (rows : List DocumentRow) :
    ∀ st : Store,
      (rows.map DbOp.insertRow).foldl applyOp st = st ++ rows := by
  induction rows with
  | nil => intro st; simp
  | cons r rs ih =>
      intro st
      simp only [List.map_cons, List.foldl_cons, applyOp]
      rw [ih]
      simp

/-- C3.  Starting from any session with no open transaction,
`upsert_chunks` leaves the committed rows of `slug` exactly the new
chunks (old rows gone, all new rows present, chunk order preserved),
leaves every other slug's rows untouched, and exposes exactly one new
committed snapshot — the delete and the inserts are never separately
observable. -/
theorem upsert_atomic_replacement (db : DbSession) (slug : String)
    (chunks : List ChunkInput) (hclean : db.pending = []) :
    ((upsert_chunks db slug chunks).committed.filter (fun r => r.slug == slug)
        = chunks.map (rowOfChunk slug))
    ∧ ((upsert_chunks db slug chunks).committed.filter (fun r => !(r.slug == slug))
        = db.committed.filter (fun r => !(r.slug == slug)))
    ∧ (upsert_chunks db slug chunks).commits
        = db.commits ++ [(upsert_chunks db slug chunks).committed] := by
  unfold upsert_chunks
  simp only [dbCommit]
  obtain ⟨hpend, hcomm, hcommits⟩ :=
    pending_after_inserts slug chunks (dbExecute db (.deleteSlug slug))
  rw [hpend, hcomm, hcommits]
  simp only [dbExecute, hclean, List.nil_append]
  have hmapcomm :
      chunks.map (fun c => DbOp.insertRow (rowOfChunk slug c))
        = (chunks.map (rowOfChunk slug)).map DbOp.insertRow := by
    simp
  rw [hmapcomm, List.singleton_append, List.foldl_cons, foldl_applyOp_inserts]
  simp only [applyOp]
  refine ⟨?_, ?_, trivial⟩
  · rw [List.filter_append]
    have h1 : (db.committed.filter (fun r => !(r.slug == slug))).filter
        (fun r => r.slug == slug) = [] := by
      rw [List.filter_filter]
      apply List.filter_eq_nil_iff.mpr
      intro r _
      simp [Bool.and_comm]
    have h2 : (chunks.map (rowOfChunk slug)).filter (fun r => r.slug == slug)
        = chunks.map (rowOfChunk slug) := by
      apply List.filter_eq_self.mpr
      intro r hr
      obtain ⟨c, _, hc⟩ := List.mem_map.mp hr
      rw [← hc]
      simp [rowOfChunk]
    rw [h1, h2, List.nil_append]
  · rw [List.filter_append]
    have h1 : (db.committed.filter (fun r => !(r.slug == slug))).filter
        (fun r => !(r.slug == slug)) = db.committed.filter (fun r => !(r.slug == slug)) := by
      apply List.filter_eq_self.mpr
      intro r hr
      exact (List.mem_filter.mp hr).2
    have h2 : (chunks.map (rowOfChunk slug)).filter (fun r => !(r.slug == slug)) = [] := by
      apply List.filter_eq_nil_iff.mpr
      intro r hr
      obtain ⟨c, _, hc⟩ := List.mem_map.mp hr
      rw [← hc]
      simp [rowOfChunk]
    rw [h1, h2, List.append_nil]

/-- Witness for `upsert_atomic_replacement`: replace the single chunk
of slug `home` while a `docs` row is present. -/
theorem upsert_atomic_replacement_witness :
    ((upsert_chunks
        ⟨[⟨"home", 0, "old", none, none⟩, ⟨"docs", 0, "keep", none, none⟩], [], []⟩
        "home" [(0, "new", none, none), (1, "extra", none, none)]).committed.filter
          (fun r => r.slug == "home")
        = [(0, "new", none, none), (1, "extra", none, none)].map (rowOfChunk "home"))
    ∧ ((upsert_chunks
        ⟨[⟨"home", 0, "old", none, none⟩, ⟨"docs", 0, "keep", none, none⟩], [], []⟩
        "home" [(0, "new", none, none), (1, "extra", none, none)]).committed.filter
          (fun r => !(r.slug == "home"))
        = [⟨"home", 0, "old", none, none⟩,
           ⟨"docs", 0, "keep", none, none⟩].filter (fun r => !(r.slug == "home")))
    ∧ (upsert_chunks
        ⟨[⟨"home", 0, "old", none, none⟩, ⟨"docs", 0, "keep", none, none⟩], [], []⟩
        "home" [(0, "new", none, none), (1, "extra", none, none)]).commits
        = [] ++ [(upsert_chunks
            ⟨[⟨"home", 0, "old", none, none⟩, ⟨"docs", 0, "keep", none, none⟩], [], []⟩
            "home" [(0, "new", none, none), (1, "extra", none, none)]).committed] :=
  upsert_atomic_replacement
    ⟨[⟨"home", 0, "old", none, none⟩, ⟨"docs", 0, "keep", none, none⟩], [], []⟩
    "home" [(0, "new", none, none), (1, "extra", none, none)] rfl

/-! ## Vector similarity search (`app/vectors.py`, `similarity_search`)

The SQL statement is `SELECT * FROM documents [WHERE slug = :slug]
ORDER BY embedding <=> :query_embedding LIMIT k`.  The cosine distance
of each stored row to the query embedding is abstracted as a function
`dist` (it is computed inside PostgreSQL by the pgvector `<=>`
operator); `ORDER BY ... LIMIT k` is modelled as a stable sort followed
by `take k`, which is its SQL semantics up to the tie order that the
spec leaves undefined. -/

/-- A stored document as seen by the search: its id and owning slug. -/
structure VDoc where
  id : ℕ
  slug : String
deriving Repr, DecidableEq

/-- The optional `WHERE slug = :slug` restriction (`if slug:` —
Python truthiness, so `None` and `""` mean no restriction). -/
def corpus_filter (corpus : List VDoc) (slug : Option String) : List VDoc :=
  if truthy slug then corpus.filter (fun d => d.slug == slug.getD "") else corpus

/-- `similarity_search(db, query_embedding, slug, k)`:
order the (optionally slug-restricted) corpus by cosine distance to the
query embedding and return the first `k` rows. -/
def similarity_search (corpus : List VDoc) (dist : VDoc → ℚ) (slug : Option String)
    (k : ℕ) : List VDoc :=
  ((corpus_filter corpus slug).mergeSort (fun a b => decide (dist a ≤ dist b))).take k

/-- C4.  Whenever `k` does not exceed the size of the (slug-restricted)
corpus, `similarity_search` returns exactly `k` chunks, ordered by
non-decreasing cosine distance to the query vector. -/
theorem similarity_search_returns_k_sorted (corpus : List VDoc) (dist : VDoc → ℚ)
    (slug : Option String) (k : ℕ) (hk : k ≤ (corpus_filter corpus slug).length) :
    (similarity_search corpus dist slug k).length = k
    ∧ (similarity_search corpus dist slug k).Pairwise (fun a b => dist a ≤ dist b) := by
  constructor
  · unfold similarity_search
    rw [List.length_take,
      ((corpus_filter corpus slug).mergeSort_perm (fun a b => decide (dist a ≤ dist b))).length_eq]
    exact Nat.min_eq_left hk
  · have hsorted := @List.sorted_mergeSort _
      (fun a b => decide (dist a ≤ dist b))
      (fun a b c hab hbc => by
        simp only [decide_eq_true_eq] at *
        exact le_trans hab hbc)
      (fun a b => by
        simp only [Bool.or_eq_true, decide_eq_true_eq]
        exact le_total _ _)
      (corpus_filter corpus slug)
    have := List.Pairwise.sublist (List.take_sublist k _) hsorted
    refine this.imp ?_
    intro a b hab
    exact decide_eq_true_eq.mp hab

/-- Witness for `similarity_search_returns_k_sorted`: three documents,
slug restriction to `"a"`, `k = 2`. -/
theorem similarity_search_returns_k_sorted_witness :
    (similarity_search [⟨1, "a"⟩, ⟨2, "b"⟩, ⟨3, "a"⟩] (fun d => (d.id : ℚ)) (some "a") 2).length = 2
    ∧ (similarity_search [⟨1, "a"⟩, ⟨2, "b"⟩, ⟨3, "a"⟩] (fun d => (d.id : ℚ))
        (some "a") 2).Pairwise (fun a b => (a.id : ℚ) ≤ (b.id : ℚ)) :=
  similarity_search_returns_k_sorted [⟨1, "a"⟩, ⟨2, "b"⟩, ⟨3, "a"⟩]
    (fun d => (d.id : ℚ)) (some "a") 2 (by decide)

/-! ## Browser validator (`app/validate.py`, `validate_page_with_playwright`)

The function's result is a Python dict whose key set differs between
branches, so it is embedded as an association list of string keys.  The
external world (whether the `playwright` import succeeds, and how the
browser session goes) is an explicit environment value; the Python
function body catches every exception, so its embedding is a total
function of that environment. -/

/-- A value stored in the result dict. -/
inductive PWValue where
  | str (s : String)
  | strList (l : List String)
  | bool (b : Bool)
deriving Repr, DecidableEq

/-- The result dict. -/
abbrev PWDict := List (String × PWValue)

/-- The environment `validate_page_with_playwright` runs against:
either the `playwright` import fails, or the browser session raises
after having collected some console errors / page errors / HTML, or the
session completes. -/
inductive PWEnv where
  | importUnavailable
  | browserRaises (message html : String) (console pageErrs : List String)
  | browserCompletes (html : String) (console pageErrs : List String)
deriving Repr, DecidableEq

/-- `validate_page_with_playwright(url, timeout_ms)`: one literal dict
per exit path of the Python function (`html or ""` equals `html` for a
string that is already `""` when unset, so `dom` is the collected
HTML verbatim). -/
def validate_page_with_playwright : PWEnv → PWDict
  | .importUnavailable =>
      [("dom", .str ""), ("console_errors", .strList []), ("page_errors", .strList []),
       ("ok", .bool false), ("reason", .str "playwright_not_available")]
  | .browserRaises message html console pageErrs =>
      [("dom", .str html), ("console_errors", .strList console),
       ("page_errors", .strList (pageErrs ++ [message])), ("ok", .bool false)]
  | .browserCompletes html console pageErrs =>
      [("dom", .str html), ("console_errors", .strList console),
       ("page_errors", .strList pageErrs), ("ok", .bool true)]

/-- C10.  The browser validator is total at its interface: whatever the
environment does, the returned dict carries the keys `dom`,
`console_errors`, `page_errors` and `ok` (totality of the embedding
models "never propagates an exception"); an unavailable Playwright
module yields `ok = false`, reason `playwright_not_available` and empty
error lists; a browser failure yields `ok = false` with the failure
message appended to the collected `page_errors`. -/
theorem validator_total_interface :
    (∀ env : PWEnv,
        (List.lookup "dom" (validate_page_with_playwright env)).isSome = true
      ∧ (List.lookup "console_errors" (validate_page_with_playwright env)).isSome = true
      ∧ (List.lookup "page_errors" (validate_page_with_playwright env)).isSome = true
      ∧ (List.lookup "ok" (validate_page_with_playwright env)).isSome = true)
    ∧ validate_page_with_playwright .importUnavailable
        = [("dom", .str ""), ("console_errors", .strList []), ("page_errors", .strList []),
           ("ok", .bool false), ("reason", .str "playwright_not_available")]
    ∧ (∀ (message html : String) (console pageErrs : List String),
        List.lookup "ok" (validate_page_with_playwright
            (.browserRaises message html console pageErrs)) = some (.bool false)
      ∧ List.lookup "page_errors" (validate_page_with_playwright
            (.browserRaises message html console pageErrs))
          = some (.strList (pageErrs ++ [message]))) := by
  refine ⟨fun env => ?_, rfl, fun message html console pageErrs => ⟨rfl, rfl⟩⟩
  cases env <;> exact ⟨rfl, rfl, rfl, rfl⟩

/-! ## Enhanced validation result (`app/rag.py`, `_enhanced_validate`)

`_enhanced_validate` builds `validation_result` from three static check
lists, then runs `validation_result.update(playwright_result)`.  The
merged dict is viewed through the fields `_needs_fix` and the callers
read. -/

/-- The merged validation dict as read downstream: the five issue
lists, the `ok` flag, and the optional `reason` marker. -/
structure ValidationView where
  console_errors : List String
  page_errors : List String
  single_page_issues : List String
  syntaxIssues : List String
  external_resource_issues : List String
  ok : Bool
  reason : Option String
deriving Repr, DecidableEq

/-- Dict read `d.get(key) or []` for a string-list key. -/
def getStrList (d : PWDict) (key : String) : List String :=
  match List.lookup key d with
  | some (.strList l) => l
  | _ => []

/-- The merged `validation_result` after
`validation_result.update(playwright_result)`: the static-check lists
(`single_page_issues`, `syntax_issues`, `external_resource_issues`) are
never overwritten because the Playwright dict has no such keys; the
browser keys overwrite, with `ok` defaulting to the static verdict when
Playwright did not run (`reason` is present only when the Playwright
dict carried it). -/
def enhanced_validation_view (multi syn ext : List String) (pw : PWDict) : ValidationView :=
  { single_page_issues := multi,
    syntaxIssues := syn,
    external_resource_issues := ext,
    console_errors := getStrList pw "console_errors",
    page_errors := getStrList pw "page_errors",
    ok := match List.lookup "ok" pw with
          | some (.bool b) => b
          | _ => multi.isEmpty && syn.isEmpty && ext.isEmpty,
    reason := match List.lookup "reason" pw with
              | some (.str s) => some s
              | _ => none }

/-- The list `all_errors = console_errors + page_errors +
single_page_issues + syntax_issues + external_issues` of `_needs_fix`. -/
def all_errors (v : ValidationView) : List String :=
  v.console_errors ++ v.page_errors ++ v.single_page_issues
    ++ v.syntaxIssues ++ v.external_resource_issues

/-- `v = getattr(state, "validation", None) or {}`: a missing
validation dict contributes no errors. -/
def all_errors_opt : Option ValidationView → List String
  | none => []
  | some v => all_errors v

/-! ## Pipeline controller (`app/rag.py`, `build_graph`)

The retry cycle of the compiled graph is
`generate → [move_images] → enhanced_validate → _needs_fix → (generate | END)`.
The external effects of one cycle — the LLM answer text, the step wall
times, and the validation outcome assembled by `_enhanced_validate` —
are supplied by oracles indexed by the generate-call number
(respectively the validation-attempt number), which quantifies the
theorems over every possible sequence of outcomes.  `move_images` does
not touch any field below and is dropped from the cycle. -/

/-- The `GraphState` fields the retry cycle reads or writes.
`original_question` models the `_original_question` attribute that
`_needs_fix` adds dynamically (absent ↦ `none`). -/
structure GraphState where
  question : String
  page_slug : Option String
  answer : Option String
  validation : Option ValidationView
  validation_attempts : ℕ
  timings : List (String × ℚ)
  original_question : Option String
deriving Repr, DecidableEq

/-- Python dict merge `{**old, key: val}`: overwrite in place or append. -/
def setKey : List (String × ℚ) → String → ℚ → List (String × ℚ)
  | [], key, v => [(key, v)]
  | (k0, v0) :: rest, key, v =>
      if k0 == key then (k0, v) :: rest else (k0, v0) :: setKey rest key v

/-- External outcomes of a run: the text `_generate` obtains from the
model for its n-th call (a function of the prompt question), the
validation outcome `_enhanced_validate` assembles on its n-th attempt,
and the measured step durations. -/
structure Oracles where
  genText : ℕ → String → String
  genMs : ℕ → ℚ
  valOutcome : ℕ → ValidationView
  valMs : ℕ → ℚ

/-- `_generate`: store the model answer and the `generate_ms` timing.
`n` is the number of generate calls already performed. -/
def generate_step (O : Oracles) (n : ℕ) (s : GraphState) : GraphState :=
  { s with answer := some (O.genText n s.question),
           timings := setKey s.timings "generate_ms" (O.genMs n) }

/-- `_enhanced_validate`: `if not state.page_slug: return state`;
otherwise store the assembled validation result, increment
`validation_attempts` and record the timing. -/
def enhanced_validate (O : Oracles) (s : GraphState) : GraphState :=
  if truthy s.page_slug then
    { s with validation := some (O.valOutcome s.validation_attempts),
             validation_attempts := s.validation_attempts + 1,
             timings := setKey s.timings "enhanced_validate_ms" (O.valMs s.validation_attempts) }
  else s

/-- `MAX_ATTEMPTS = 3` in `_needs_fix`. -/
def MAX_ATTEMPTS : ℕ := 3

/-- The `error_context` string `_needs_fix` builds from the first ten
errors. -/
def error_context (errs : List String) : String :=
  "Previous validation found these issues to fix:\n"
    ++ String.join ((errs.take 10).map (fun e => "- " ++ e ++ "\n"))

/-- Where `_needs_fix` routes next. -/
inductive Route where
  | generate
  | endGraph
deriving Repr, DecidableEq

/-- `_needs_fix`: with outstanding errors and
`validation_attempts <= MAX_ATTEMPTS`, stash the original question,
fold the error context into the question and loop to `generate`;
otherwise restore the original question (when one was stashed) and end. -/
def needs_fix (s : GraphState) : GraphState × Route :=
  let errs := all_errors_opt s.validation
  if errs ≠ [] ∧ s.validation_attempts ≤ MAX_ATTEMPTS then
    let oq := s.original_question.getD s.question
    ({ s with original_question := some oq,
              question := oq ++ "\n\nIMPORTANT - Fix these validation errors:\n"
                ++ error_context errs },
     Route.generate)
  else
    ({ s with question := s.original_question.getD s.question }, Route.endGraph)

/-- The retry cycle of the compiled graph, from the first `generate`
on.  `fuel` bounds the number of cycles still allowed (`none` =
exhausted before the graph ended); `calls` counts generate calls
already made; the result pairs the final state with the total number of
generate calls. -/
def pipe_run (O : Oracles) : ℕ → GraphState → ℕ → Option (GraphState × ℕ)
  | 0, _, _ => none
  | fuel + 1, s, calls =>
      let step := needs_fix (enhanced_validate O (generate_step O calls s))
      if step.2 = Route.generate then pipe_run O fuel step.1 (calls + 1)
      else some (step.1, calls + 1)

/-- The state `/api/chat` hands to the graph: fresh counters, no
stashed question. -/
def initState (q : String) (slug : Option String) : GraphState :=
  { question := q, page_slug := slug, answer := none, validation := none,
    validation_attempts := 0, timings := [], original_question := none }

/-- The `/api/chat` persistence guard (`app/main.py`):
`if "<html" in (answer or "") and req.page_slug:` — a version is
written only when the final answer contains `"<html"` and a page slug
was supplied. -/
def contains_substring (hay needle : String) : Bool :=
  decide (needle.toList <:+: hay.toList)

/-- Whether `/api/chat` persists the answer as a page version. -/
def chat_saves (answer : Option String) (page_slug : Option String) : Bool :=
  contains_substring (answer.getD "") "<html" && truthy page_slug

lemma generate_step_page_slug (O : Oracles) (n : ℕ) (s : GraphState) :
    (generate_step O n s).page_slug = s.page_slug := rfl

lemma generate_step_validation (O : Oracles) (n : ℕ) (s : GraphState) :
    (generate_step O n s).validation = s.validation := rfl

lemma generate_step_attempts (O : Oracles) (n : ℕ) (s : GraphState) :
    (generate_step O n s).validation_attempts = s.validation_attempts := rfl

lemma generate_step_question (O : Oracles) (n : ℕ) (s : GraphState) :
    (generate_step O n s).question = s.question := rfl

lemma generate_step_oq (O : Oracles) (n : ℕ) (s : GraphState) :
    (generate_step O n s).original_question = s.original_question := rfl

lemma enhanced_validate_page_slug (O : Oracles) (s : GraphState) :
    (enhanced_validate O s).page_slug = s.page_slug := by
  unfold enhanced_validate; split <;> rfl

lemma enhanced_validate_question (O : Oracles) (s : GraphState) :
    (enhanced_validate O s).question = s.question := by
  unfold enhanced_validate; split <;> rfl

lemma enhanced_validate_oq (O : Oracles) (s : GraphState) :
    (enhanced_validate O s).original_question = s.original_question := by
  unfold enhanced_validate; split <;> rfl

lemma enhanced_validate_attempts_ge (O : Oracles) (s : GraphState) :
    s.validation_attempts ≤ (enhanced_validate O s).validation_attempts := by
  unfold enhanced_validate; split
  · exact Nat.le_succ _
  · exact le_rfl

lemma enhanced_validate_of_truthy (O : Oracles) (s : GraphState)
    (h : truthy s.page_slug = true) :
    enhanced_validate O s =
      { s with validation := some (O.valOutcome s.validation_attempts),
               validation_attempts := s.validation_attempts + 1,
               timings := setKey s.timings "enhanced_validate_ms"
                 (O.valMs s.validation_attempts) } := by
  unfold enhanced_validate
  rw [if_pos h]

lemma enhanced_validate_of_falsy (O : Oracles) (s : GraphState)
    (h : truthy s.page_slug = false) :
    enhanced_validate O s = s := by
  unfold enhanced_validate
  rw [if_neg (by rw [h]; exact Bool.false_ne_true)]

lemma needs_fix_frame (s : GraphState) :
    (needs_fix s).1.answer = s.answer
    ∧ (needs_fix s).1.validation = s.validation
    ∧ (needs_fix s).1.validation_attempts = s.validation_attempts
    ∧ (needs_fix s).1.timings = s.timings
    ∧ (needs_fix s).1.page_slug = s.page_slug := by
  unfold needs_fix
  dsimp only
  by_cases hc : all_errors_opt s.validation ≠ [] ∧ s.validation_attempts ≤ MAX_ATTEMPTS
  · rw [if_pos hc]
    exact ⟨rfl, rfl, rfl, rfl, rfl⟩
  · rw [if_neg hc]
    exact ⟨rfl, rfl, rfl, rfl, rfl⟩

lemma needs_fix_route_of_no_errors (s : GraphState)
    (h : all_errors_opt s.validation = []) :
    (needs_fix s).2 = Route.endGraph := by
  unfold needs_fix
  dsimp only
  rw [if_neg (fun hc : all_errors_opt s.validation ≠ []
      ∧ s.validation_attempts ≤ MAX_ATTEMPTS => hc.1 h)]

lemma needs_fix_generate_attempts_le (s : GraphState)
    (h : (needs_fix s).2 = Route.generate) :
    s.validation_attempts ≤ MAX_ATTEMPTS := by
  by_cases hc : all_errors_opt s.validation ≠ [] ∧ s.validation_attempts ≤ MAX_ATTEMPTS
  · exact hc.2
  · unfold needs_fix at h
    dsimp only at h
    rw [if_neg hc] at h
    exact absurd h (by simp)

lemma pipe_run_succ_of_generate (O : Oracles) (fuel : ℕ) (s : GraphState) (calls : ℕ)
    (hr : (needs_fix (enhanced_validate O (generate_step O calls s))).2 = Route.generate) :
    pipe_run O (fuel + 1) s calls
      = pipe_run O fuel (needs_fix (enhanced_validate O (generate_step O calls s))).1
          (calls + 1) := by
  simp only [pipe_run]
  rw [if_pos hr]

lemma pipe_run_succ_of_end (O : Oracles) (fuel : ℕ) (s : GraphState) (calls : ℕ)
    (hr : (needs_fix (enhanced_validate O (generate_step O calls s))).2 ≠ Route.generate) :
    pipe_run O (fuel + 1) s calls
      = some ((needs_fix (enhanced_validate O (generate_step O calls s))).1, calls + 1) := by
  simp only [pipe_run]
  rw [if_neg hr]

/-- Adding fuel does not change an already-terminated run. -/
lemma pipe_run_stable (O : Oracles) :
    ∀ (fuel1 : ℕ) (s : GraphState) (calls fuel2 : ℕ),
      fuel1 ≤ fuel2 → (pipe_run O fuel1 s calls).isSome = true →
      pipe_run O fuel2 s calls = pipe_run O fuel1 s calls := by
  intro fuel1
  induction fuel1 with
  | zero =>
      intro s calls fuel2 _ h
      simp [pipe_run] at h
  | succ f ih =>
      intro s calls fuel2 hle h
      obtain ⟨f2, rfl⟩ : ∃ f2, fuel2 = f2 + 1 := ⟨fuel2 - 1, by omega⟩
      by_cases hr :
          (needs_fix (enhanced_validate O (generate_step O calls s))).2 = Route.generate
      · rw [pipe_run_succ_of_generate O f s calls hr] at h
        rw [pipe_run_succ_of_generate O f2 s calls hr,
          pipe_run_succ_of_generate O f s calls hr]
        exact ih _ (calls + 1) f2 (by omega) h
      · rw [pipe_run_succ_of_end O f2 s calls hr, pipe_run_succ_of_end O f s calls hr]

/-- Generate-call count is bounded by the fuel actually consumed. -/
lemma pipe_run_calls_le (O : Oracles) :
    ∀ (fuel : ℕ) (s : GraphState) (calls : ℕ) (s2 : GraphState) (n : ℕ),
      pipe_run O fuel s calls = some (s2, n) → n ≤ calls + fuel := by
  intro fuel
  induction fuel with
  | zero => intro s calls s2 n h; simp [pipe_run] at h
  | succ f ih =>
      intro s calls s2 n h
      by_cases hr :
          (needs_fix (enhanced_validate O (generate_step O calls s))).2 = Route.generate
      · rw [pipe_run_succ_of_generate O f s calls hr] at h
        have := ih _ (calls + 1) s2 n h
        omega
      · rw [pipe_run_succ_of_end O f s calls hr] at h
        rw [Option.some.injEq, Prod.mk.injEq] at h
        omega

/-- The run terminates once `max 1 (4 - validation_attempts)` cycles of
fuel are available, provided a state without a truthy slug carries no
validation result (true of every state the graph can reach, since
`_enhanced_validate` is the only writer of `validation`). -/
lemma pipe_run_isSome (O : Oracles) :
    ∀ (fuel : ℕ) (s : GraphState) (calls : ℕ),
      (truthy s.page_slug = false → s.validation = none) →
      1 ≤ fuel → MAX_ATTEMPTS + 1 ≤ fuel + s.validation_attempts →
      (pipe_run O fuel s calls).isSome = true := by
  intro fuel
  induction fuel with
  | zero => intro s calls _ h1 _; exact absurd h1 (by omega)
  | succ f ih =>
      intro s calls hval _ h4
      cases htr : truthy s.page_slug with
      | false =>
          have hev : enhanced_validate O (generate_step O calls s)
              = generate_step O calls s :=
            enhanced_validate_of_falsy O _ (by rw [generate_step_page_slug]; exact htr)
          have herrs : all_errors_opt (generate_step O calls s).validation = [] := by
            rw [generate_step_validation, hval htr]
            rfl
          have hroute :
              (needs_fix (enhanced_validate O (generate_step O calls s))).2
                = Route.endGraph := by
            rw [hev]
            exact needs_fix_route_of_no_errors _ herrs
          rw [pipe_run_succ_of_end O f s calls (by rw [hroute]; simp)]
          rfl
      | true =>
          by_cases hr :
              (needs_fix (enhanced_validate O (generate_step O calls s))).2 = Route.generate
          · rw [pipe_run_succ_of_generate O f s calls hr]
            have hs2attempts :
                (enhanced_validate O (generate_step O calls s)).validation_attempts
                  = s.validation_attempts + 1 := by
              rw [enhanced_validate_of_truthy O _
                (by rw [generate_step_page_slug]; exact htr)]
              rfl
            have hle : s.validation_attempts + 1 ≤ MAX_ATTEMPTS := by
              have := needs_fix_generate_attempts_le _ hr
              omega
            have h3slug :
                truthy (needs_fix (enhanced_validate O (generate_step O calls s))).1.page_slug
                  = true := by
              rw [(needs_fix_frame _).2.2.2.2, enhanced_validate_page_slug,
                generate_step_page_slug]
              exact htr
            apply ih _ (calls + 1)
            · intro hfalse
              rw [h3slug] at hfalse
              exact absurd hfalse (by simp)
            · have hM : MAX_ATTEMPTS = 3 := rfl
              omega
            · have h3attempts :
                  (needs_fix (enhanced_validate O (generate_step O calls s))).1.validation_attempts
                    = s.validation_attempts + 1 := by
                rw [(needs_fix_frame _).2.2.1, hs2attempts]
              have hM : MAX_ATTEMPTS = 3 := rfl
              omega
          · rw [pipe_run_succ_of_end O f s calls hr]
            rfl

lemma initState_attempts (q : String) (slug : Option String) :
    (initState q slug).validation_attempts = 0 := rfl

/-- Validation attempts never decrease along a run. -/
lemma pipe_run_attempts_le (O : Oracles) :
    ∀ (fuel : ℕ) (s : GraphState) (calls : ℕ) (s2 : GraphState) (n : ℕ),
      pipe_run O fuel s calls = some (s2, n) →
      s.validation_attempts ≤ s2.validation_attempts := by
  intro fuel
  induction fuel with
  | zero => intro s calls s2 n h; simp [pipe_run] at h
  | succ f ih =>
      intro s calls s2 n h
      have hstep : s.validation_attempts
          ≤ (needs_fix (enhanced_validate O (generate_step O calls s))).1.validation_attempts := by
        rw [(needs_fix_frame _).2.2.1]
        calc s.validation_attempts
            = (generate_step O calls s).validation_attempts := rfl
          _ ≤ (enhanced_validate O (generate_step O calls s)).validation_attempts :=
              enhanced_validate_attempts_ge O _
      by_cases hr :
          (needs_fix (enhanced_validate O (generate_step O calls s))).2 = Route.generate
      · rw [pipe_run_succ_of_generate O f s calls hr] at h
        exact le_trans hstep (ih _ (calls + 1) s2 n h)
      · rw [pipe_run_succ_of_end O f s calls hr] at h
        rw [Option.some.injEq, Prod.mk.injEq] at h
        rw [← h.1]
        exact hstep

/-- The invariant `_needs_fix` maintains on the question fields: either
the original question was never stashed and `question` still is it, or
the stash holds it. -/
def question_invariant (q : String) (s : GraphState) : Prop :=
  (s.original_question = none ∧ s.question = q) ∨ s.original_question = some q

lemma needs_fix_question_invariant (q : String) (s : GraphState)
    (h : question_invariant q s) :
    question_invariant q (needs_fix s).1
    ∧ ((needs_fix s).2 = Route.endGraph → (needs_fix s).1.question = q) := by
  unfold needs_fix
  dsimp only
  by_cases hc : all_errors_opt s.validation ≠ [] ∧ s.validation_attempts ≤ MAX_ATTEMPTS
  · rw [if_pos hc]
    refine ⟨Or.inr ?_, fun hend => absurd hend (by simp)⟩
    show some (s.original_question.getD s.question) = some q
    rcases h with ⟨h1, h2⟩ | h1
    · rw [h1, Option.getD_none, h2]
    · rw [h1, Option.getD_some]
  · rw [if_neg hc]
    have hq : s.original_question.getD s.question = q := by
      rcases h with ⟨h1, h2⟩ | h1
      · rw [h1, Option.getD_none]; exact h2
      · rw [h1, Option.getD_some]
    refine ⟨?_, fun _ => hq⟩
    rcases h with ⟨h1, _⟩ | h1
    · exact Or.inl ⟨h1, hq⟩
    · exact Or.inr h1

lemma generate_step_question_invariant (q : String) (O : Oracles) (n : ℕ)
    (s : GraphState) (h : question_invariant q s) :
    question_invariant q (generate_step O n s) := h

lemma enhanced_validate_question_invariant (q : String) (O : Oracles)
    (s : GraphState) (h : question_invariant q s) :
    question_invariant q (enhanced_validate O s) := by
  unfold enhanced_validate
  split
  · exact h
  · exact h

/-- On every terminating run the final question is the one the
invariant tracks. -/
lemma pipe_run_question (O : Oracles) (q : String) :
    ∀ (fuel : ℕ) (s : GraphState) (calls : ℕ) (s2 : GraphState) (n : ℕ),
      question_invariant q s → pipe_run O fuel s calls = some (s2, n) →
      s2.question = q := by
  intro fuel
  induction fuel with
  | zero => intro s calls s2 n _ h; simp [pipe_run] at h
  | succ f ih =>
      intro s calls s2 n hq h
      have hq2 : question_invariant q (enhanced_validate O (generate_step O calls s)) :=
        enhanced_validate_question_invariant q O _
          (generate_step_question_invariant q O calls s hq)
      by_cases hr :
          (needs_fix (enhanced_validate O (generate_step O calls s))).2 = Route.generate
      · rw [pipe_run_succ_of_generate O f s calls hr] at h
        exact ih _ (calls + 1) s2 n (needs_fix_question_invariant q _ hq2).1 h
      · rw [pipe_run_succ_of_end O f s calls hr] at h
        rw [Option.some.injEq, Prod.mk.injEq] at h
        have hend :
            (needs_fix (enhanced_validate O (generate_step O calls s))).2
              = Route.endGraph := by
          cases hroute :
              (needs_fix (enhanced_validate O (generate_step O calls s))).2
          · exact absurd hroute hr
          · rfl
        rw [← h.1]
        exact (needs_fix_question_invariant q _ hq2).2 hend

/-! Sample runs used by witnesses and counterexamples. -/

/-- A validation outcome with no issues at all. -/
def cleanValidation : ValidationView :=
  { console_errors := [], page_errors := [], single_page_issues := [],
    syntaxIssues := [], external_resource_issues := [], ok := true, reason := none }

/-- A validation outcome whose merged `ok` flag is `true` (Playwright
loaded the page) while console errors were still collected — reachable
because `validate_page_with_playwright` returns `ok: True` together
with whatever `console_errors` it gathered. -/
def okButNoisy : ValidationView :=
  { console_errors := ["TypeError: boom from console"], page_errors := [],
    single_page_issues := [], syntaxIssues := [], external_resource_issues := [],
    ok := true, reason := none }

/-- Model always answers a full HTML document; validation is clean. -/
def sampleOracles : Oracles :=
  { genText := fun _ _ => "<html><body>ok page</body></html>",
    genMs := fun _ => 0,
    valOutcome := fun _ => cleanValidation,
    valMs := fun _ => 0 }

/-- Model always answers a full HTML document; every validation is
`okButNoisy`. -/
def okButNoisyOracles : Oracles :=
  { genText := fun _ _ => "<html><body>retry</body></html>",
    genMs := fun _ => 0,
    valOutcome := fun _ => okButNoisy,
    valMs := fun _ => 0 }

/-- Model answers plain text without any `<html` tag; validation is
clean. -/
def noHtmlOracles : Oracles :=
  { genText := fun _ _ => "plain text only",
    genMs := fun _ => 0,
    valOutcome := fun _ => cleanValidation,
    valMs := fun _ => 0 }

/-- C2.  For every sequence of validation outcomes (and of generated
answers), the retry loop terminates — any fuel of at least 4 cycles
yields the same final result — and the total number of `Generate`
invocations is at most `MAX_ATTEMPTS + 1 = 4`: the initial call plus at
most 3 retries. -/
theorem retry_bound_and_terminates (O : Oracles) (q : String) (slug : Option String)
    (fuel : ℕ) (hf : 4 ≤ fuel) :
    pipe_run O fuel (initState q slug) 0 = pipe_run O 4 (initState q slug) 0
    ∧ ∃ (s2 : GraphState) (n : ℕ),
        pipe_run O 4 (initState q slug) 0 = some (s2, n) ∧ n ≤ 4 := by
  have hsome : (pipe_run O 4 (initState q slug) 0).isSome = true := by
    apply pipe_run_isSome O 4 (initState q slug) 0
    · intro _; rfl
    · omega
    · rw [initState_attempts]; decide
  obtain ⟨⟨s2, n⟩, hrun⟩ := Option.isSome_iff_exists.mp hsome
  refine ⟨pipe_run_stable O 4 (initState q slug) 0 fuel hf hsome, s2, n, hrun, ?_⟩
  have := pipe_run_calls_le O 4 (initState q slug) 0 s2 n hrun
  omega

/-- Witness for `retry_bound_and_terminates` at a concrete run. -/
theorem retry_bound_and_terminates_witness :
    pipe_run sampleOracles 7 (initState "build a page" (some "demo")) 0
        = pipe_run sampleOracles 4 (initState "build a page" (some "demo")) 0
    ∧ ∃ (s2 : GraphState) (n : ℕ),
        pipe_run sampleOracles 4 (initState "build a page" (some "demo")) 0
          = some (s2, n) ∧ n ≤ 4 :=
  retry_bound_and_terminates sampleOracles "build a page" (some "demo") 7 (by omega)

/-- C6 (amended).  If the first validation finds no outstanding issues
(all five issue lists empty), the pipeline terminates after exactly one
`Generate` call — zero retries. -/
theorem clean_first_validation_single_generate (O : Oracles) (q : String)
    (slug : Option String) (fuel : ℕ) (hf : 1 ≤ fuel)
    (hclean : all_errors (O.valOutcome 0) = []) :
    ∃ s2 : GraphState, pipe_run O fuel (initState q slug) 0 = some (s2, 1) := by
  obtain ⟨f, rfl⟩ : ∃ f, fuel = f + 1 := ⟨fuel - 1, by omega⟩
  have hroute :
      (needs_fix (enhanced_validate O (generate_step O 0 (initState q slug)))).2
        = Route.endGraph := by
    cases htr : truthy (initState q slug).page_slug with
    | false =>
        rw [enhanced_validate_of_falsy O _ (by rw [generate_step_page_slug]; exact htr)]
        apply needs_fix_route_of_no_errors
        rw [generate_step_validation]
        rfl
    | true =>
        rw [enhanced_validate_of_truthy O _ (by rw [generate_step_page_slug]; exact htr)]
        apply needs_fix_route_of_no_errors
        show all_errors (O.valOutcome
          (generate_step O 0 (initState q slug)).validation_attempts) = []
        exact hclean
  rw [pipe_run_succ_of_end O f _ 0 (by rw [hroute]; simp)]
  exact ⟨_, rfl⟩

/-- Witness for `clean_first_validation_single_generate`. -/
theorem clean_first_validation_single_generate_witness :
    ∃ s2 : GraphState,
      pipe_run sampleOracles 4 (initState "build a page" (some "demo")) 0 = some (s2, 1) :=
  clean_first_validation_single_generate sampleOracles "build a page" (some "demo") 4
    (by omega) rfl

/-- C6 counterexample.  A first validation whose merged `ok` flag is
`true` (the Playwright branch returns `ok: True` together with the
console errors it collected) still carries a non-empty
`console_errors` list, so `_needs_fix` keeps looping: the run performs
4 generate calls, not 1. -/
theorem ok_true_still_retries_cex :
    (okButNoisyOracles.valOutcome 0).ok = true
    ∧ (pipe_run okButNoisyOracles 9 (initState "make a page" (some "demo")) 0).map
        (fun r => r.2) = some 4 := by
  exact ⟨rfl, rfl⟩

/-- C5 (amended).  An answer with no `<html` tag is never persisted by
the `/api/chat` guard (no version written), regardless of page id; but
the pipeline does not skip validation for it — whenever a truthy page
slug is set, every terminating run has performed at least one
validation attempt, whatever the generated text was. -/
theorem no_html_no_persist_validation_still_runs :
    (∀ (answer : Option String) (slug : Option String),
        contains_substring (answer.getD "") "<html" = false →
        chat_saves answer slug = false)
    ∧ (∀ (O : Oracles) (q : String) (slug : Option String) (fuel : ℕ)
        (s2 : GraphState) (n : ℕ), truthy slug = true →
        pipe_run O fuel (initState q slug) 0 = some (s2, n) →
        1 ≤ s2.validation_attempts) := by
  constructor
  · intro answer slug h
    unfold chat_saves
    rw [h]
    rfl
  · intro O q slug fuel s2 n htr hrun
    obtain ⟨f, rfl⟩ : ∃ f, fuel = f + 1 := by
      cases fuel with
      | zero => simp [pipe_run] at hrun
      | succ f => exact ⟨f, rfl⟩
    have h1 :
        (needs_fix (enhanced_validate O (generate_step O 0 (initState q slug)))).1.validation_attempts
          = 1 := by
      rw [(needs_fix_frame _).2.2.1,
        enhanced_validate_of_truthy O _ (by rw [generate_step_page_slug]; exact htr)]
      rfl
    by_cases hr :
        (needs_fix (enhanced_validate O (generate_step O 0 (initState q slug)))).2
          = Route.generate
    · rw [pipe_run_succ_of_generate O f _ 0 hr] at hrun
      have := pipe_run_attempts_le O f _ 1 s2 n hrun
      omega
    · rw [pipe_run_succ_of_end O f _ 0 hr] at hrun
      rw [Option.some.injEq, Prod.mk.injEq] at hrun
      rw [← hrun.1]
      omega

/-- Witness for `no_html_no_persist_validation_still_runs`: both parts
applied at a concrete answer and a concrete run. -/
theorem no_html_no_persist_validation_still_runs_witness :
    chat_saves (some "a plain answer") (some "demo") = false
    ∧ (pipe_run noHtmlOracles 4 (initState "build a page" (some "demo")) 0).map
        (fun r => decide (1 ≤ r.1.validation_attempts)) = some true := by
  refine ⟨no_html_no_persist_validation_still_runs.1 (some "a plain answer")
    (some "demo") rfl, ?_⟩
  obtain ⟨⟨s2, n⟩, hrun⟩ := Option.isSome_iff_exists.mp
    (pipe_run_isSome noHtmlOracles 4 (initState "build a page" (some "demo")) 0
      (fun _ => rfl) (by omega) (by rw [initState_attempts]; decide))
  rw [hrun, Option.map_some']
  exact congrArg some (decide_eq_true
    (no_html_no_persist_validation_still_runs.2 noHtmlOracles "build a page"
      (some "demo") 4 s2 n rfl hrun))

/-- C5 counterexample.  A run whose generated answer contains no
`<html` tag, with a page slug set, still gets validated: the final
state records one validation attempt over the tagless answer
(refuting "never re-validates it"). -/
theorem no_html_still_validated_cex :
    contains_substring "plain text only" "<html" = false
    ∧ (pipe_run noHtmlOracles 4 (initState "make a page" (some "demo")) 0).map
        (fun r => (r.1.validation_attempts, r.1.answer)) = some (1, some "plain text only") := by
  exact ⟨rfl, rfl⟩

/-- C9.  Question rollback and its frame: every terminating run returns
the question originally submitted (the error context folded in during
retries is rolled back at the `END` route), and the `_needs_fix` step
never touches the answer, validation result, attempt counter, timings
or page slug — the rollback changes nothing but the question fields. -/
theorem question_rollback_frame (O : Oracles) :
    (∀ (fuel : ℕ) (q : String) (slug : Option String) (s2 : GraphState) (n : ℕ),
        pipe_run O fuel (initState q slug) 0 = some (s2, n) → s2.question = q)
    ∧ (∀ s : GraphState,
        (needs_fix s).1.answer = s.answer
        ∧ (needs_fix s).1.validation = s.validation
        ∧ (needs_fix s).1.validation_attempts = s.validation_attempts
        ∧ (needs_fix s).1.timings = s.timings
        ∧ (needs_fix s).1.page_slug = s.page_slug) := by
  refine ⟨fun fuel q slug s2 n h => ?_, needs_fix_frame⟩
  exact pipe_run_question O q fuel (initState q slug) 0 s2 n (Or.inl ⟨rfl, rfl⟩) h

/-- Witness for `question_rollback_frame`: a run that retries four
times (so the question was rewritten in between) still ends with the
submitted question. -/
theorem question_rollback_frame_witness :
    (pipe_run okButNoisyOracles 9 (initState "make a page" (some "demo")) 0).map
        (fun r => r.1.question) = some "make a page" := by
  obtain ⟨⟨s2, n⟩, hrun⟩ := Option.isSome_iff_exists.mp
    (pipe_run_isSome okButNoisyOracles 9 (initState "make a page" (some "demo")) 0
      (fun _ => rfl) (by omega) (by rw [initState_attempts]; decide))
  rw [hrun, Option.map_some']
  exact congrArg some ((question_rollback_frame okButNoisyOracles).1 9 "make a page"
    (some "demo") s2 n hrun)

/-- C7.  When the Playwright import is unavailable, the merged
validation result carries the explicit `playwright_not_available`
marker with `ok = false`; its browser-side error lists are empty, so
the outstanding issues are exactly the static-check ones; and with no
static issues `_needs_fix` routes to `END` at once — the pipeline
terminates instead of retrying. -/
theorem playwright_unavailable_degrades (multi syn ext : List String) :
    (enhanced_validation_view multi syn ext
        (validate_page_with_playwright .importUnavailable)).reason
      = some "playwright_not_available"
    ∧ (enhanced_validation_view multi syn ext
        (validate_page_with_playwright .importUnavailable)).ok = false
    ∧ all_errors (enhanced_validation_view multi syn ext
        (validate_page_with_playwright .importUnavailable)) = multi ++ syn ++ ext
    ∧ (∀ s : GraphState,
        s.validation = some (enhanced_validation_view [] [] []
          (validate_page_with_playwright .importUnavailable)) →
        (needs_fix s).2 = Route.endGraph) := by
  refine ⟨rfl, rfl, ?_, ?_⟩
  · show ([] : List String) ++ [] ++ multi ++ syn ++ ext = multi ++ syn ++ ext
    simp
  · intro s hv
    apply needs_fix_route_of_no_errors
    rw [hv]
    rfl

/-- Witness for `playwright_unavailable_degrades`: concrete lists and a
concrete state carrying the degraded validation result. -/
theorem playwright_unavailable_degrades_witness :
    (enhanced_validation_view ["href to a.html"] [] []
        (validate_page_with_playwright .importUnavailable)).reason
      = some "playwright_not_available"
    ∧ (enhanced_validation_view ["href to a.html"] [] []
        (validate_page_with_playwright .importUnavailable)).ok = false
    ∧ all_errors (enhanced_validation_view ["href to a.html"] [] []
        (validate_page_with_playwright .importUnavailable)) = ["href to a.html"] ++ [] ++ []
    ∧ (needs_fix
        { question := "q", page_slug := some "demo", answer := some "<html></html>",
          validation := some (enhanced_validation_view [] [] []
            (validate_page_with_playwright .importUnavailable)),
          validation_attempts := 1, timings := [], original_question := none }).2
      = Route.endGraph := by
  obtain ⟨h1, h2, h3, h4⟩ := playwright_unavailable_degrades ["href to a.html"] [] []
  exact ⟨h1, h2, h3, h4 _ rfl⟩

end WebPageGenie
